import Mathlib

/-!
Verification development for the core ledger layer of `core/block_crypt.cpp`
(beam). All machine integers (`Height`, `Amount`) are modelled as `Nat` with
explicit wrap-around `% 2^64` where the C++ unsigned arithmetic can wrap.
Opaque curve/hash types (`Point`, `Scalar`, `Hash`) are modelled as `Nat`
carrying the total byte order their `cmp` functions expose; native curve
points (the excess accumulator) are modelled as `Int`, an additive-group
stand-in, with the external crypto routines (point import, signature and
range-proof verification, oracle hashing) taken as abstract parameters, as
they live outside this translation unit.
-/

namespace Beam

/-! ### Definitions -/

def W64 : Nat := 2 ^ 64

def MaxHeight : Nat := W64 - 1

/-- 64-bit wrapping subtraction, faithful for operands `< W64`. -/
def sub64 (a b : Nat) : Nat := (a + W64 - b) % W64

/-- `CMP_SIMPLE(a, b)`: `-1` if `a < b`, `1` if `a > b`, else fall through. -/
def cmp3 (a b : Nat) : Int := if a < b then -1 else if b < a then 1 else 0

/-- Sequencing of comparison results: return the first nonzero one. -/
def ccat (n m : Int) : Int := if n = 0 then m else n

/-- `CMP_PTRS(a, b)`: a set pointer sorts above a null one, two set
pointers compare by the pointees. -/
def cmpOpt {α : Type} (f : α → α → Int) : Option α → Option α → Int
  | some a, some b => f a b
  | some _, none => 1
  | none, some _ => -1
  | none, none => 0

/-- C++ `bool` as `Nat` (`false < true` under `CMP_SIMPLE`). -/
def b2n (b : Bool) : Nat := if b then 1 else 0

/-- A well-behaved 3-valued comparison: antisymmetric (`flip`), with ties
acting as a congruence (`zcl`) and a transitive strict part (`tlt`). -/
structure CmpOK {α : Type} (f : α → α → Int) : Prop where
  flip : ∀ a b, f b a = -(f a b)
  zcl : ∀ a b c, f a b = 0 → f b c = f a c
  tlt : ∀ a b c, f a b < 0 → f b c < 0 → f a c < 0

def insertS {α : Type} (le : α → α → Bool) (x : α) : List α → List α
  | [] => [x]
  | y :: ys => if le x y then x :: y :: ys else y :: insertS le x ys

def isort {α : Type} (le : α → α → Bool) : List α → List α
  | [] => []
  | x :: xs => insertS le x (isort le xs)

structure HeightRange where
  m_Min : Nat
  m_Max : Nat
deriving DecidableEq, Repr

namespace HeightRange

/-- `HeightRange::Reset`. -/
def Reset : HeightRange := { m_Min := 0, m_Max := MaxHeight }

/-- `HeightRange::Intersect`. -/
def Intersect (a x : HeightRange) : HeightRange :=
  { m_Min := max a.m_Min x.m_Min, m_Max := min a.m_Max x.m_Max }

/-- `HeightRange::IsEmpty`. -/
def IsEmpty (a : HeightRange) : Bool := decide (a.m_Max < a.m_Min)

/-- `HeightRange::IsInRangeRelative`: `dh <= m_Max - m_Min` in wrapping
64-bit arithmetic. -/
def IsInRangeRelative (a : HeightRange) (dh : Nat) : Bool :=
  decide (dh ≤ sub64 a.m_Max a.m_Min)

/-- `HeightRange::IsInRange`: `IsInRangeRelative(h - m_Min)` (wrapping). -/
def IsInRange (a : HeightRange) (h : Nat) : Bool :=
  a.IsInRangeRelative (sub64 h a.m_Min)

end HeightRange

structure HeightHash where
  m_Height : Nat
  m_Hash : Nat
deriving DecidableEq, Repr

/-- The consensus-parameter singleton. Fork entries are the three
`pForks[0..2]` slots this version reads and writes. -/
structure Rules where
  Prehistoric : Nat
  TreasuryChecksum : Nat
  EmissionValue0 : Nat
  EmissionDrop0 : Nat
  EmissionDrop1 : Nat
  MaturityCoinbase : Nat
  MaturityStd : Nat
  MaxBodySize : Nat
  FakePoW : Bool
  AllowPublicUtxos : Bool
  DATarget_s : Nat
  DAMaxAhead_s : Nat
  DAWindowWork : Nat
  DAWindowMedian0 : Nat
  DAWindowMedian1 : Nat
  DADifficulty0Packed : Nat
  DADampM : Nat
  DADampN : Nat
  MaxRollback : Nat
  MaxKernelValidityDH : Nat
  ShieldedEnabled : Bool
  ShieldedNMax : Nat
  ShieldedNMin : Nat
  ShieldedMaxWindowBacklog : Nat
  CAEnabled : Bool
  CADeposit : Bool
  pForks0 : HeightHash
  pForks1 : HeightHash
  pForks2 : HeightHash
deriving DecidableEq, Repr

namespace Rules

def HeightGenesis : Nat := 1

def Coin : Nat := 100000000

/-- `Rules::IsForkHeightsConsistent` (the loop unrolled over the three
fork slots of this version). -/
def IsForkHeightsConsistent (r : Rules) : Bool :=
  decide (r.pForks0.m_Height = HeightGenesis - 1) &&
  decide (r.pForks0.m_Height ≤ r.pForks1.m_Height) &&
  decide (r.pForks1.m_Height ≤ r.pForks2.m_Height)

/-! ### Emission -/

/-- `Rules::get_EmissionEx`. Returns `(emission, hEnd)`.
`h` and `base` are 64-bit values (`< W64`); the `h -= HeightGenesis`
underflow and the `base += base >> 2` overflow wrap mod `2^64` exactly as
the C++ unsigned arithmetic does. -/
def get_EmissionEx (r : Rules) (h base : Nat) : Nat × Nat :=
  let d := sub64 h HeightGenesis
  if d < r.EmissionDrop0 then
    ((HeightGenesis + r.EmissionDrop0) % W64, base)
  else
    let n := 1 + (d - r.EmissionDrop0) / r.EmissionDrop1
    if 64 ≤ n then
      (MaxHeight, 0)
    else
      let hEnd := (HeightGenesis + r.EmissionDrop0 + n * r.EmissionDrop1) % W64
      let base2 := if 2 ≤ n then (base + base / 4) % W64 else base
      (hEnd, base2 >>> n)

/-- `Rules::get_Emission(Height)`: the per-block reward at height `h`. -/
def get_Emission (r : Rules) (h : Nat) : Nat :=
  (r.get_EmissionEx h r.EmissionValue0).2

end Rules

/-- `Input` is a `TxElement` (commitment only; the `m_Internal` bookkeeping
is not compared and plays no role in the claims). The commitment `Point` is
opaque; `Nat` carries its total byte order. -/
structure Input where
  m_Commitment : Nat
deriving DecidableEq, Repr

/-- `TxElement::cmp`: order by commitment. -/
def Input.cmp (a b : Input) : Int := cmp3 a.m_Commitment b.m_Commitment

/-- `Output`: commitment, flags, incubation, asset id and exactly one of
the two (opaque) range proofs. -/
structure Output where
  m_Commitment : Nat
  m_Coinbase : Bool
  m_RecoveryOnly : Bool
  m_Incubation : Nat
  m_AssetID : Nat
  m_pConfidential : Option Nat
  m_pPublic : Option Nat
deriving DecidableEq, Repr

/-- `Output::cmp`: the `TxElement` commitment first, then flags,
incubation, asset id and the two proof pointers. -/
def Output.cmp (v w : Output) : Int :=
  ccat (cmp3 v.m_Commitment w.m_Commitment)
    (ccat (cmp3 (b2n v.m_Coinbase) (b2n w.m_Coinbase))
      (ccat (cmp3 (b2n v.m_RecoveryOnly) (b2n w.m_RecoveryOnly))
        (ccat (cmp3 v.m_Incubation w.m_Incubation)
          (ccat (cmp3 v.m_AssetID w.m_AssetID)
            (ccat (cmpOpt cmp3 v.m_pConfidential w.m_pConfidential)
              (cmpOpt cmp3 v.m_pPublic w.m_pPublic))))))

/-- `TxBase::CmpInOut`: an input and an output compare as bare
`TxElement`s, i.e. by commitment only. -/
def TxBase.CmpInOut (i : Input) (o : Output) : Int :=
  cmp3 i.m_Commitment o.m_Commitment

/-- `TxKernelStd::HashLock` (value + image bit; only the value is
compared). -/
structure HashLock where
  m_Value : Nat
  m_IsImage : Bool
deriving DecidableEq, Repr

/-- `TxKernelStd::RelativeLock`. -/
structure RelativeLock where
  m_ID : Nat
  m_LockHeight : Nat
deriving DecidableEq, Repr

/-- `TxKernelStd::HashLock::cmp`. -/
def HashLock.cmp (a b : HashLock) : Int := cmp3 a.m_Value b.m_Value

/-- `TxKernelStd::RelativeLock::cmp`. -/
def RelativeLock.cmp (a b : RelativeLock) : Int :=
  ccat (cmp3 a.m_ID b.m_ID) (cmp3 a.m_LockHeight b.m_LockHeight)

/-- The subtype-specific payload of the kernel variants. Non-standard
kernels carry their cached message `m_Msg`. Curve points, signatures,
serials and proofs are opaque (`Nat`). -/
inductive KernelVariant : Type where
  | Std (m_Commitment m_Signature : Nat)
        (m_pHashLock : Option HashLock) (m_pRelativeLock : Option RelativeLock)
  | AssetEmit (m_Msg m_Commitment m_Signature m_AssetID : Nat) (m_Value : Int)
  | ShieldedOutput (m_Msg m_TxoCommitment m_TxoSerial m_TxoRangeProof : Nat)
  | ShieldedInput (m_Msg m_WindowEnd m_SpendProofCommitment m_SpendProof : Nat)
deriving DecidableEq, Repr

/-- The `Subtype::Enum` code used by `CMP_SIMPLE(t0, t1)`. The numeric
codes come from the `BeamKernelsAll` list order of the (missing) header;
only their relative order matters for `cmp`. -/
def KernelVariant.code : KernelVariant → Nat
  | .Std .. => 1
  | .AssetEmit .. => 2
  | .ShieldedOutput .. => 3
  | .ShieldedInput .. => 4

/-- A transaction kernel: the `TxKernel` base fields (stored internal ID,
fee, height range, can-embed flag, nested kernel list) plus the variant
payload. -/
inductive TxKernel : Type where
  | mk (m_InternalID m_Fee m_HeightMin m_HeightMax : Nat) (m_CanEmbed : Bool)
       (variant : KernelVariant) (m_vNested : List TxKernel)
deriving Repr

def TxKernel.m_InternalID : TxKernel → Nat
  | .mk i _ _ _ _ _ _ => i

def TxKernel.m_Fee : TxKernel → Nat
  | .mk _ f _ _ _ _ _ => f

def TxKernel.m_HeightMin : TxKernel → Nat
  | .mk _ _ mn _ _ _ _ => mn

def TxKernel.m_HeightMax : TxKernel → Nat
  | .mk _ _ _ mx _ _ _ => mx

def TxKernel.m_CanEmbed : TxKernel → Bool
  | .mk _ _ _ _ ce _ _ => ce

def TxKernel.variant : TxKernel → KernelVariant
  | .mk _ _ _ _ _ v _ => v

def TxKernel.m_vNested : TxKernel → List TxKernel
  | .mk _ _ _ _ _ _ n => n

/-- `TxKernel::get_Subtype` as a numeric code. -/
def TxKernel.subtypeCode (k : TxKernel) : Nat := k.variant.code

mutual

/-- `TxKernel::cmp`: starting at Fork2 (judged per-kernel by
`m_Height.m_Min`), compare the internal IDs first; a pre-Fork2 kernel
sorts strictly below a Fork2+ one; then subtype code, then the
subtype-specific comparison. -/
def TxKernel.cmp (r : Rules) (a b : TxKernel) : Int :=
  if r.pForks2.m_Height ≤ a.m_HeightMin then
    if ¬ (r.pForks2.m_Height ≤ b.m_HeightMin) then 1
    else
      ccat (cmp3 a.m_InternalID b.m_InternalID)
        (ccat (cmp3 a.subtypeCode b.subtypeCode) (TxKernel.cmpSubtype r a b))
  else
    if r.pForks2.m_Height ≤ b.m_HeightMin then -1
    else
      ccat (cmp3 a.subtypeCode b.subtypeCode) (TxKernel.cmpSubtype r a b)
termination_by (sizeOf a + sizeOf b, 1)

/-- `TxKernel::cmp_Subtype`: only `TxKernelStd` overrides it (commitment,
signature, fee, height range, nested list, optional locks); the base
implementation returns 0. -/
def TxKernel.cmpSubtype (r : Rules) (a b : TxKernel) : Int :=
  match a, b with
  | .mk _ fee1 mn1 mx1 _ (.Std c1 s1 hl1 rl1) n1,
    .mk _ fee2 mn2 mx2 _ (.Std c2 s2 hl2 rl2) n2 =>
    ccat (cmp3 c1 c2)
      (ccat (cmp3 s1 s2)
        (ccat (cmp3 fee1 fee2)
          (ccat (cmp3 mn1 mn2)
            (ccat (cmp3 mx1 mx2)
              (ccat (TxKernel.cmpList r n1 n2)
                (ccat (cmpOpt HashLock.cmp hl1 hl2)
                  (cmpOpt RelativeLock.cmp rl1 rl2)))))))
  | _, _ => 0
termination_by (sizeOf a + sizeOf b, 0)

/-- The nested-list walk inside `TxKernelStd::cmp_Subtype`: element-wise,
the longer list sorting above its proper prefix. -/
def TxKernel.cmpList (r : Rules) (xs ys : List TxKernel) : Int :=
  match xs, ys with
  | [], [] => 0
  | _ :: _, [] => 1
  | [], _ :: _ => -1
  | x :: xs1, y :: ys1 =>
    ccat (TxKernel.cmp r x y) (TxKernel.cmpList r xs1 ys1)
termination_by (sizeOf xs + sizeOf ys, 0)

end

/-- `TxStats`: the additive counters. `m_Fee` and `m_Coinbase` are wide
(128-bit) accumulators; counts are machine words. Realistic values never
wrap, so they are plain `Nat` here. -/
structure TxStats where
  m_Fee : Nat
  m_Coinbase : Nat
  m_Kernels : Nat
  m_Inputs : Nat
  m_Outputs : Nat
  m_InputsShielded : Nat
  m_OutputsShielded : Nat
deriving DecidableEq, Repr

mutual

/-- `TxKernel::AddStats` plus the subtype overrides: the base adds the
kernel count, the fee and recurses into the nested kernels;
`TxKernelShieldedOutput` then also counts an output and a shielded output,
`TxKernelShieldedInput` an input and a shielded input. -/
def TxKernel.AddStats (k : TxKernel) (s : TxStats) : TxStats :=
  match k with
  | .mk _ fee _ _ _ v nested =>
    let s2 := TxKernel.AddStatsList nested
      { s with m_Kernels := s.m_Kernels + 1, m_Fee := s.m_Fee + fee }
    match v with
    | .Std .. => s2
    | .AssetEmit .. => s2
    | .ShieldedOutput .. =>
      { s2 with m_Outputs := s2.m_Outputs + 1,
                m_OutputsShielded := s2.m_OutputsShielded + 1 }
    | .ShieldedInput .. =>
      { s2 with m_Inputs := s2.m_Inputs + 1,
                m_InputsShielded := s2.m_InputsShielded + 1 }
termination_by (sizeOf k, 1)

def TxKernel.AddStatsList (ks : List TxKernel) (s : TxStats) : TxStats :=
  match ks with
  | [] => s
  | k :: tl => TxKernel.AddStatsList tl (TxKernel.AddStats k s)
termination_by (sizeOf ks, 0)

end

/-- `Input::AddStats`. -/
def Input.AddStats (_ : Input) (s : TxStats) : TxStats :=
  { s with m_Inputs := s.m_Inputs + 1 }

/-- `Transaction::FeeSettings` with the constructor defaults. -/
structure FeeSettings where
  m_Output : Nat
  m_Kernel : Nat
  m_ShieldedInput : Nat
  m_ShieldedOutput : Nat
deriving DecidableEq, Repr

/-- The `FeeSettings::FeeSettings()` defaults. -/
def FeeSettings.default : FeeSettings :=
  { m_Output := 10, m_Kernel := 10, m_ShieldedInput := 1000, m_ShieldedOutput := 1000 }

/-- `Transaction::FeeSettings::Calculate(TxStats)`, in wrapping 64-bit
`Amount` arithmetic. -/
def FeeSettings.Calculate (f : FeeSettings) (s : TxStats) : Nat :=
  (f.m_Output * s.m_Outputs +
   f.m_Kernel * s.m_Kernels +
   f.m_ShieldedInput * s.m_InputsShielded +
   f.m_ShieldedOutput * s.m_OutputsShielded) % W64

/-- The inner loop of `TxVectors::Perishable::NormalizeP` for one input:
walk the outputs from the current position; an output below the input is
skipped (kept), an equal one is deleted together with the input, a greater
one stops the walk. Returns (outputs passed over, outputs remaining,
whether a match was deleted). -/
def sweepInp (i : Input) : List Output → List Output × List Output × Bool
  | [] => ([], [], false)
  | o :: os =>
    let n := TxBase.CmpInOut i o
    if n < 0 then ([], o :: os, false)
    else if n = 0 then ([], os, true)
    else
      let t := sweepInp i os
      (o :: t.1, t.2.1, t.2.2)

/-- The outer loop of `NormalizeP`: sweep each input in turn against the
not-yet-passed outputs; `RebuildVectorWithoutNulls` is fused in (deleted
entries are simply dropped). Returns (inputs kept, outputs kept, number of
deleted pairs). -/
def sweepAll : List Input → List Output → List Input × List Output × Nat
  | [], os => ([], os, 0)
  | i :: is, os =>
    let t := sweepInp i os
    let u := sweepAll is t.2.1
    if t.2.2 then (u.1, t.1 ++ u.2.1, u.2.2 + 1)
    else (i :: u.1, t.1 ++ u.2.1, u.2.2)

/-- The element orders `std::sort` uses (via the `Ptr` `operator <`
wrappers of the header: pointees compare with their `cmp`). -/
def inpLeB (a b : Input) : Bool := decide (Input.cmp a b ≤ 0)

def outLeB (a b : Output) : Bool := decide (Output.cmp a b ≤ 0)

def kernLeB (r : Rules) (a b : TxKernel) : Bool := decide (TxKernel.cmp r a b ≤ 0)

/-- `TxVectors::Full`: the three vectors of a transaction (the offset
scalar plays no role in normalization). -/
structure TxVectorsFull where
  m_vInputs : List Input
  m_vOutputs : List Output
  m_vKernels : List TxKernel
deriving Repr

/-- `TxVectors::Perishable::NormalizeP`: sort inputs and outputs, then
run the cut-through sweep. -/
def NormalizeP (ins : List Input) (outs : List Output) :
    List Input × List Output × Nat :=
  sweepAll (isort inpLeB ins) (isort outLeB outs)

/-- `TxVectors::Eternal::NormalizeE`: sort the kernels. -/
def NormalizeE (r : Rules) (ks : List TxKernel) : List TxKernel :=
  isort (kernLeB r) ks

/-- `TxVectors::Full::Normalize`: `NormalizeE` then `NormalizeP`, returning
the number of cut-through pairs. -/
def TxVectorsFull.Normalize (r : Rules) (t : TxVectorsFull) : TxVectorsFull × Nat :=
  let ks := NormalizeE r t.m_vKernels
  let p := NormalizeP t.m_vInputs t.m_vOutputs
  ({ m_vInputs := p.1, m_vOutputs := p.2.1, m_vKernels := ks }, p.2.2)

/-- The external crypto consumed by `Output::IsValid`: point import and the
two range-proof verifiers (which receive the commitment, the prepared
oracle transcript and the asset generator, here represented by the asset
id deriving it). -/
structure OutputEnv where
  importOk : Nat → Bool
  confValid : Nat → Nat → List Nat → Nat → Bool
  pubValid : Nat → Nat → List Nat → Nat → Bool

/-- `Output::Prepare`: the oracle absorbs the incubation and, at Fork1+,
the commitment. -/
def Output.Prepare (r : Rules) (hScheme : Nat) (o : Output) : List Nat :=
  [o.m_Incubation] ++ (if r.pForks1.m_Height ≤ hScheme then [o.m_Commitment] else [])

/-- `Output::IsValid`: import the commitment, then dispatch on the proof
shape — a Confidential proof forbids coinbase and a second (Public) proof;
a Public proof requires `AllowPublicUtxos` or coinbase; no proof at all is
invalid. -/
def Output.IsValid (env : OutputEnv) (r : Rules) (hScheme : Nat) (o : Output) : Bool :=
  if ¬ env.importOk o.m_Commitment then false
  else
    match o.m_pConfidential with
    | some pc =>
      if o.m_Coinbase then false
      else if o.m_pPublic.isSome then false
      else env.confValid pc o.m_Commitment (Output.Prepare r hScheme o) o.m_AssetID
    | none =>
      match o.m_pPublic with
      | none => false
      | some pp =>
        if ¬ (r.AllowPublicUtxos || o.m_Coinbase) then false
        else env.pubValid pp o.m_Commitment (Output.Prepare r hScheme o) o.m_AssetID

/-- The control-flow mirror of `Output::IsValid` recording whether the
range-proof verifier is reached (i.e. whether `IsValid` returns the
verifier's verdict rather than an early `false`). -/
def Output.reachesVerifier (env : OutputEnv) (r : Rules) (o : Output) : Bool :=
  if ¬ env.importOk o.m_Commitment then false
  else
    match o.m_pConfidential with
    | some _ =>
      if o.m_Coinbase then false
      else if o.m_pPublic.isSome then false
      else true
    | none =>
      match o.m_pPublic with
      | none => false
      | some _ =>
        if ¬ (r.AllowPublicUtxos || o.m_Coinbase) then false
        else true

inductive KidvScheme : Type where
  | V0
  | V1
  | BB21
deriving DecidableEq, Repr

/-- Modelled from the spec: the `Key::IDV` key-identifier tuple of the
missing header `block_crypt.h`/keychain headers. Its `get_Subkey()` and
`get_Scheme()` accessors (which unpack `m_SubIdx`) are plain fields here;
the schemes are V0 (legacy), V1+ (value included) and the BB21 workaround. -/
structure KeyIDV where
  subkey : Nat
  scheme : KidvScheme
deriving DecidableEq, Repr

/-- `MasterKey::get_Child(pKdf, kidv)`: subkey 0 is by convention the
master key itself, the BB21 scheme keeps the master key as a workaround,
anything else derives the child KDF for the subkey index (the derivation
`ECC::HKdf::CreateChild` is external: `createChild`). -/
def MasterKey.get_Child {Kdf : Type} (createChild : Kdf → Nat → Kdf)
    (pKdf : Kdf) (kidv : KeyIDV) : Kdf :=
  if kidv.subkey = 0 then pKdf
  else if kidv.scheme = KidvScheme.BB21 then pKdf
  else createChild pKdf kidv.subkey

/-- The external crypto consumed by the kernel `IsValid` family: point
imports (`Option` is import failure), the Y-bit flip on a stored point,
signature and proof verifiers, and the asset-generator derivation. Native
points are `Int` (an additive-group stand-in). -/
structure KernelEnv where
  importNnz : Nat → Option Int
  importPt : Nat → Option Int
  flipY : Nat → Nat
  sigStdValid : Nat → Nat → Int → Bool
  sig2Valid : Nat → Nat → Int → Int → Bool
  serialValid : Nat → Bool
  shieldedRangeProofValid : Nat → Int → Nat → Bool
  hGenFromAID : Nat → Int
  hH : Int

/-- The pre-Fork2 nested-sort check `(*p0Krn > v)`. -/
def prevGreater (r : Rules) (p0 : Option TxKernel) (v : TxKernel) : Bool :=
  match p0 with
  | some p => decide (0 < TxKernel.cmp r p v)
  | none => false

mutual

/-- The virtual `TxKernel::IsValid` dispatch. The in-out excess becomes an
explicit `Int` threaded through; `none` is a failed validation.
Variant behaviors as in the source: `Std` gates the relative lock on
Fork1, imports its commitment into the excess before the base checks
(passing the imported point as `pComm`) and verifies the signature over
the ID against the (possibly compatibility-folded) point; `AssetEmit` is
Fork2/CA gated with nonzero value and asset id, verifies the 2-key
signature over the message, and adds `hGen*|value|` with the generator
negated (and `H` absorbed when deposit is on) appropriately;
`ShieldedOutput` is Fork2/Shielded gated, imports the TXO commitment and
checks serial and range proof; `ShieldedInput` is Fork2/Shielded gated and
imports the spend-proof commitment with its Y bit flipped. -/
def TxKernel.IsValid (env : KernelEnv) (r : Rules) (hScheme : Nat) (exc : Int)
    (pParent : Option TxKernel) (k : TxKernel) : Option Int :=
  match k.variant with
  | .Std c s _ rl =>
    if hScheme < r.pForks1.m_Height ∧ rl.isSome then none
    else
      match env.importNnz c with
      | none => none
      | some pt =>
        match TxKernel.IsValidBase env r hScheme (exc + pt) pParent (some pt) k with
        | none => none
        | some (exc2, pComm2) =>
          match pComm2 with
          | none => none
          | some pt2 =>
            if env.sigStdValid s k.m_InternalID pt2 then some exc2 else none
  | .AssetEmit msg c s aid v =>
    match TxKernel.IsValidBase env r hScheme exc pParent none k with
    | none => none
    | some (exc2, _) =>
      if hScheme < r.pForks2.m_Height ∨ ¬ r.CAEnabled then none
      else if v = 0 ∨ aid = 0 then none
      else
        match env.importNnz c with
        | none => none
        | some pt0 =>
          match env.importPt aid with
          | none => none
          | some pt1 =>
            if ¬ env.sig2Valid s msg pt0 pt1 then none
            else
              let hGen0 := - env.hGenFromAID aid
              let hGen1 := if r.CADeposit then hGen0 + env.hH else hGen0
              let val : Int := if 0 < v then v else -v
              let hGen2 := if 0 < v then hGen1 else -hGen1
              some ((exc2 + pt0) + hGen2 * val)
  | .ShieldedOutput msg tc ser rp =>
    match TxKernel.IsValidBase env r hScheme exc pParent none k with
    | none => none
    | some (exc2, _) =>
      if hScheme < r.pForks2.m_Height ∨ ¬ r.ShieldedEnabled then none
      else
        match env.importNnz tc with
        | none => none
        | some comm =>
          if ¬ env.serialValid ser then none
          else if ¬ env.shieldedRangeProofValid rp comm msg then none
          else some (exc2 + comm)
  | .ShieldedInput _ _ spc _ =>
    match TxKernel.IsValidBase env r hScheme exc pParent none k with
    | none => none
    | some (exc2, _) =>
      if hScheme < r.pForks2.m_Height ∨ ¬ r.ShieldedEnabled then none
      else
        match env.importNnz (env.flipY spc) with
        | none => none
        | some comm => some (exc2 + comm)
termination_by (sizeOf k, 3)

/-- `TxKernel::IsValidBase`: the can-embed Fork1 gate; for a nested kernel
(`pParent` set) the can-embed flag and the containment of the parent's
height range in this kernel's; for a top-level kernel the Fork2 minimum
height; then the nested-kernel walk. -/
def TxKernel.IsValidBase (env : KernelEnv) (r : Rules) (hScheme : Nat) (exc : Int)
    (pParent : Option TxKernel) (pComm : Option Int) (k : TxKernel) :
    Option (Int × Option Int) :=
  if hScheme < r.pForks1.m_Height ∧ k.m_CanEmbed = true then none
  else
    match pParent with
    | some par =>
      if ¬ (k.m_CanEmbed = true) then none
      else if par.m_HeightMin < k.m_HeightMin ∨ k.m_HeightMax < par.m_HeightMax then none
      else TxKernel.IsValidBaseNested env r hScheme exc pComm k
    | none =>
      if r.pForks2.m_Height ≤ hScheme ∧ k.m_HeightMin < r.pForks2.m_Height then none
      else TxKernel.IsValidBaseNested env r hScheme exc pComm k
termination_by (sizeOf k, 2)

/-- The nested part of `IsValidBase`: an empty nested list short-circuits;
otherwise the children are walked (sorted pre-Fork2, each validated with
this kernel as parent) and the accumulated nested excess is folded into
the parent commitment pre-Fork2 (requiring `pComm`) or added to the
running excess at Fork2+. -/
def TxKernel.IsValidBaseNested (env : KernelEnv) (r : Rules) (hScheme : Nat)
    (exc : Int) (pComm : Option Int) (k : TxKernel) : Option (Int × Option Int) :=
  match k with
  | .mk i f mn mx ce v nested =>
    match nested with
    | [] => some (exc, pComm)
    | n0 :: nrest =>
      match TxKernel.validNestedLoop env r hScheme (.mk i f mn mx ce v nested)
          none 0 (n0 :: nrest) with
      | none => none
      | some excN =>
        if hScheme < r.pForks2.m_Height then
          match pComm with
          | none => none
          | some c => some (exc, some (c + (-excN)))
        else some (exc + excN, pComm)
termination_by (sizeOf k, 1)

/-- The `for` loop over `m_vNested` in `IsValidBase`. -/
def TxKernel.validNestedLoop (env : KernelEnv) (r : Rules) (hScheme : Nat)
    (parent : TxKernel) (p0 : Option TxKernel) (excN : Int) :
    List TxKernel → Option Int
  | [] => some excN
  | v :: rest =>
    if hScheme < r.pForks2.m_Height ∧ prevGreater r p0 v = true then none
    else
      match TxKernel.IsValid env r hScheme excN (some parent) v with
      | none => none
      | some excN2 => TxKernel.validNestedLoop env r hScheme parent (some v) excN2 rest
termination_by l => (sizeOf l, 0)

end

/-- External inputs of `Rules::UpdateChecksum`: the curve-context checksum
and the PoW shape constants (from outside this translation unit), and the
oracle's extraction function (`>>`), modelled as a hash of the absorbed
transcript; an extraction also advances the transcript. -/
structure ChecksumExternals where
  hvChecksum : Nat
  powK : Nat
  powN : Nat
  nonceBits : Nat
  oracleH : List Nat → Nat

/-- Token standing for the absorbed string literal "masternet". -/
def tokMasternet : Nat := 1001

/-- Token standing for the absorbed string literal "fork1". -/
def tokFork1 : Nat := 1002

/-- Token standing for the absorbed string literal "fork2". -/
def tokFork2 : Nat := 1003

/-- The parameters absorbed before emitting `pForks[0].m_Hash`, in the
source's order (deprecated literals included). -/
def Rules.checksumBase (e : ChecksumExternals) (r : Rules) : List Nat :=
  [e.hvChecksum, r.Prehistoric, r.TreasuryChecksum, Rules.HeightGenesis, Rules.Coin,
   r.EmissionValue0, r.EmissionDrop0, r.EmissionDrop1, r.MaturityCoinbase, r.MaturityStd,
   r.MaxBodySize, b2n r.FakePoW, b2n r.AllowPublicUtxos, b2n false, b2n true,
   r.DATarget_s, r.DAMaxAhead_s, r.DAWindowWork, r.DAWindowMedian0, r.DAWindowMedian1,
   r.DADifficulty0Packed, r.MaxRollback, 720, e.powK, e.powN, e.nonceBits, 14,
   tokMasternet]

/-- The additional parameters absorbed before emitting `pForks[1].m_Hash`. -/
def Rules.checksumFork1 (r : Rules) : List Nat :=
  [tokFork1, r.pForks1.m_Height, r.DADampM, r.DADampN]

/-- The additional parameters absorbed before emitting `pForks[2].m_Hash`. -/
def Rules.checksumFork2 (r : Rules) : List Nat :=
  [tokFork2, r.pForks2.m_Height, r.MaxKernelValidityDH, b2n r.ShieldedEnabled, 1,
   r.ShieldedNMax, r.ShieldedNMin, r.ShieldedMaxWindowBacklog, b2n r.CAEnabled,
   b2n r.CADeposit]

/-- The oracle transcript at the `pForks[1].m_Hash` extraction: the base
absorption, the first extraction (an extraction advances the transcript),
then the fork1 parameters. -/
def Rules.checksumT1 (e : ChecksumExternals) (r : Rules) : List Nat :=
  (Rules.checksumBase e r ++ [e.oracleH (Rules.checksumBase e r)]) ++
    Rules.checksumFork1 r

/-- The oracle transcript at the `pForks[2].m_Hash` extraction. -/
def Rules.checksumT2 (e : ChecksumExternals) (r : Rules) : List Nat :=
  (Rules.checksumT1 e r ++ [e.oracleH (Rules.checksumT1 e r)]) ++
    Rules.checksumFork2 r

/-- `Rules::UpdateChecksum`: throw on inconsistent fork heights, otherwise
absorb every consensus parameter and write the three fork hashes from the
oracle transcript. -/
def Rules.UpdateChecksum (e : ChecksumExternals) (r : Rules) : Except String Rules :=
  if r.IsForkHeightsConsistent then
    Except.ok { r with
      pForks0 := { r.pForks0 with m_Hash := e.oracleH (Rules.checksumBase e r) },
      pForks1 := { r.pForks1 with m_Hash := e.oracleH (Rules.checksumT1 e r) },
      pForks2 := { r.pForks2 with m_Hash := e.oracleH (Rules.checksumT2 e r) } }
  else
    Except.error "Inconsistent Forks"

/-- The emission formula exactly as the specification words it: with
`d = h - HeightGenesis` (64-bit), reward `Value0` while `d < Drop0`,
otherwise `n = 1 + (d - Drop0) / Drop1` and the reward is `0` once
`n >= 64`, else `(Value0 + (n >= 2 ? Value0 / 4 : 0)) >> n` in unsigned
64-bit arithmetic. Used only to compare against `Rules.get_Emission`. -/
def emissionClaim (r : Rules) (h : Nat) : Nat :=
  let d := sub64 h Rules.HeightGenesis
  if d < r.EmissionDrop0 then
    r.EmissionValue0
  else
    let n := 1 + (d - r.EmissionDrop0) / r.EmissionDrop1
    if 64 ≤ n then 0
    else
      ((r.EmissionValue0 + (if 2 ≤ n then r.EmissionValue0 / 4 else 0)) % W64) >>> n

/-- A consistent rule set: genesis fork at height 0, Fork1 at 5, Fork2 at
10, a positive emission schedule. -/
def rFix : Rules := {
  Prehistoric := 11, TreasuryChecksum := 12, EmissionValue0 := 80,
  EmissionDrop0 := 4, EmissionDrop1 := 2, MaturityCoinbase := 240,
  MaturityStd := 0, MaxBodySize := 0x100000, FakePoW := false,
  AllowPublicUtxos := false, DATarget_s := 60, DAMaxAhead_s := 7200,
  DAWindowWork := 120, DAWindowMedian0 := 25, DAWindowMedian1 := 7,
  DADifficulty0Packed := 100, DADampM := 4, DADampN := 5, MaxRollback := 1440,
  MaxKernelValidityDH := 3600, ShieldedEnabled := true, ShieldedNMax := 65536,
  ShieldedNMin := 1024, ShieldedMaxWindowBacklog := 65536, CAEnabled := true,
  CADeposit := true, pForks0 := ⟨0, 0⟩, pForks1 := ⟨5, 0⟩, pForks2 := ⟨10, 0⟩ }

/-- `rFix` with Fork2 moved below Fork1: non-monotonic fork heights. -/
def rBad : Rules := { rFix with pForks2 := ⟨3, 0⟩ }

/-- A kernel environment whose external crypto always succeeds. -/
def envK : KernelEnv := {
  importNnz := fun _ => some 0, importPt := fun _ => some 0, flipY := id,
  sigStdValid := fun _ _ _ => true, sig2Valid := fun _ _ _ _ => true,
  serialValid := fun _ => true, shieldedRangeProofValid := fun _ _ _ => true,
  hGenFromAID := fun _ => 0, hH := 0 }

/-- An output environment whose external crypto always succeeds. -/
def envO : OutputEnv := {
  importOk := fun _ => true,
  confValid := fun _ _ _ _ => true,
  pubValid := fun _ _ _ _ => true }

/-- Concrete checksum externals with a simple transcript hash. -/
def eFix : ChecksumExternals := {
  hvChecksum := 7, powK := 3, powN := 9, nonceBits := 24,
  oracleH := fun l => l.length + l.sum }

/-- A parent kernel with height range [5, 8]. -/
def kPar : TxKernel := .mk 0 0 5 8 true (.Std 0 0 none none) []

/-- A nested child kernel with height range [0, 100] ⊇ [5, 8]. -/
def kChild : TxKernel := .mk 0 0 0 100 true (.Std 0 0 none none) []

/-- A Fork2+ standard kernel, internal ID 7, commitment 1. -/
def kA2 : TxKernel := .mk 7 0 10 20 false (.Std 1 0 none none) []

/-- A Fork2+ standard kernel, internal ID 7, commitment 2. -/
def kB2 : TxKernel := .mk 7 0 10 20 false (.Std 2 0 none none) []

/-- A pre-Fork2 standard kernel (minimum height 5 < Fork2 = 10). -/
def kPre : TxKernel := .mk 3 0 5 20 false (.Std 0 0 none none) []

/-- A transaction with one input and one output sharing commitment 5. -/
def tCut : TxVectorsFull :=
  ⟨[⟨5⟩], [⟨5, false, false, 0, 0, none, some 3⟩], []⟩

/-- An output with no range proof at all. -/
def oBad : Output := ⟨1, false, false, 0, 0, none, none⟩

/-- A simple child-KDF derivation over `Nat` keys. -/
def cc0 : Nat → Nat → Nat := fun a i => a * 1000 + i

/-! ### Theorems -/

theorem cmp3_flip (a b : Nat) : cmp3 b a = -(cmp3 a b) := by
  unfold cmp3
  rcases Nat.lt_trichotomy a b with h | h | h <;>
    simp [h, Nat.lt_asymm, Nat.lt_irrefl]

theorem cmp3_eq_zero_iff (a b : Nat) : cmp3 a b = 0 ↔ a = b := by
  unfold cmp3; split <;> rename_i h
  · omega
  · split <;> rename_i h2 <;> omega

theorem cmp3_lt_iff (a b : Nat) : cmp3 a b < 0 ↔ a < b := by
  unfold cmp3; split <;> rename_i h
  · simp [h]
  · split <;> rename_i h2 <;> omega

theorem cmp3_nonpos_iff (a b : Nat) : cmp3 a b ≤ 0 ↔ a ≤ b := by
  unfold cmp3; split <;> rename_i h
  · simp; omega
  · split <;> rename_i h2 <;> omega

theorem ccat_flip {n n' m m' : Int} (hn : n' = -n) (hm : m' = -m) :
    ccat n' m' = -(ccat n m) := by
  unfold ccat; subst hn hm
  by_cases h : n = 0 <;> simp [h]

theorem ccat_eq_zero_iff (n m : Int) : ccat n m = 0 ↔ n = 0 ∧ m = 0 := by
  unfold ccat; by_cases h : n = 0 <;> simp [h]

theorem ccat_lt_iff (n m : Int) : ccat n m < 0 ↔ n < 0 ∨ (n = 0 ∧ m < 0) := by
  unfold ccat; by_cases h : n = 0 <;> simp [h]

theorem cmp3_cmpOK : CmpOK cmp3 := by
  refine ⟨cmp3_flip, ?_, ?_⟩
  · intro a b c h
    rw [(cmp3_eq_zero_iff a b).mp h]
  · intro a b c h1 h2
    rw [cmp3_lt_iff] at h1 h2 ⊢
    omega

theorem CmpOK.comap {α β : Type} {f : α → α → Int} (hf : CmpOK f) (k : β → α) :
    CmpOK (fun a b => f (k a) (k b)) :=
  ⟨fun a b => hf.flip (k a) (k b),
   fun a b c h => hf.zcl (k a) (k b) (k c) h,
   fun a b c h1 h2 => hf.tlt (k a) (k b) (k c) h1 h2⟩

theorem CmpOK.ccatC {α : Type} {f g : α → α → Int} (hf : CmpOK f) (hg : CmpOK g) :
    CmpOK (fun a b => ccat (f a b) (g a b)) := by
  refine ⟨?_, ?_, ?_⟩
  · intro a b
    exact ccat_flip (hf.flip a b) (hg.flip a b)
  · intro a b c h
    rw [ccat_eq_zero_iff] at h
    rw [hf.zcl a b c h.1, hg.zcl a b c h.2]
  · intro a b c h1 h2
    rw [ccat_lt_iff] at h1 h2 ⊢
    rcases h1 with h1 | ⟨h1z, h1g⟩ <;> rcases h2 with h2 | ⟨h2z, h2g⟩
    · exact Or.inl (hf.tlt a b c h1 h2)
    · left
      have hca : f c a = f b a := hf.zcl b c a h2z
      have hba : f b a = -(f a b) := hf.flip a b
      have hac : f a c = -(f c a) := hf.flip c a
      omega
    · left
      rw [hf.zcl a b c h1z] at h2
      exact h2
    · right
      constructor
      · rw [← hf.zcl a b c h1z, h2z]
      · exact hg.tlt a b c h1g h2g

theorem CmpOK.opt {α : Type} {f : α → α → Int} (hf : CmpOK f) : CmpOK (cmpOpt f) := by
  refine ⟨?_, ?_, ?_⟩
  · intro a b
    cases a <;> cases b <;> simp only [cmpOpt] <;> try rfl
    exact hf.flip _ _
  · intro a b c h
    cases a <;> cases b <;> cases c <;> simp only [cmpOpt] at h ⊢ <;> try omega
    exact hf.zcl _ _ _ h
  · intro a b c h1 h2
    cases a <;> cases b <;> cases c <;> simp only [cmpOpt] at h1 h2 ⊢ <;> try omega
    exact hf.tlt _ _ _ h1 h2

theorem CmpOK.le_trans {α : Type} {f : α → α → Int} (hf : CmpOK f) {a b c : α}
    (h1 : f a b ≤ 0) (h2 : f b c ≤ 0) : f a c ≤ 0 := by
  rcases lt_or_eq_of_le h1 with h1' | h1'
  · rcases lt_or_eq_of_le h2 with h2' | h2'
    · exact le_of_lt (hf.tlt a b c h1' h2')
    · have hca : f c a = f b a := hf.zcl b c a h2'
      have hba : f b a = -(f a b) := hf.flip a b
      have hac : f a c = -(f c a) := hf.flip c a
      omega
  · rw [← hf.zcl a b c h1']
    exact h2

theorem CmpOK.le_total {α : Type} {f : α → α → Int} (hf : CmpOK f) (a b : α) :
    f a b ≤ 0 ∨ f b a ≤ 0 := by
  have := hf.flip a b
  omega

theorem insertS_length {α : Type} (le : α → α → Bool) (x : α) (l : List α) :
    (insertS le x l).length = l.length + 1 := by
  induction l with
  | nil => rfl
  | cons y ys ih =>
    unfold insertS
    split <;> simp [List.length, ih]

theorem isort_length {α : Type} (le : α → α → Bool) (l : List α) :
    (isort le l).length = l.length := by
  induction l with
  | nil => rfl
  | cons x xs ih => simp [isort, insertS_length, ih]

theorem insertS_head? {α : Type} (le : α → α → Bool) (x : α) (l : List α) :
    (insertS le x l).head? = some x ∨ (insertS le x l).head? = l.head? := by
  cases l with
  | nil => left; rfl
  | cons y ys =>
    unfold insertS
    split
    · left; rfl
    · right; rfl

theorem chain'_insertS {α : Type} {le : α → α → Bool}
    (htot : ∀ a b, le a b = true ∨ le b a = true) (x : α) {l : List α}
    (h : List.Chain' (fun a b => le a b = true) l) :
    List.Chain' (fun a b => le a b = true) (insertS le x l) := by
  induction l with
  | nil => simp [insertS]
  | cons y ys ih =>
    rw [List.chain'_cons'] at h
    unfold insertS
    split <;> rename_i hxy
    · rw [List.chain'_cons']
      refine ⟨?_, List.chain'_cons'.mpr h⟩
      intro z hz
      simp at hz
      subst hz
      exact hxy
    · rw [List.chain'_cons']
      refine ⟨?_, ih h.2⟩
      intro z hz
      rcases insertS_head? le x ys with hh | hh
      · rw [hh] at hz
        simp at hz
        subst hz
        rcases htot x y with ht | ht
        · exact absurd ht hxy
        · exact ht
      · rw [hh] at hz
        exact h.1 z hz

theorem isort_chain' {α : Type} {le : α → α → Bool}
    (htot : ∀ a b, le a b = true ∨ le b a = true) (l : List α) :
    List.Chain' (fun a b => le a b = true) (isort le l) := by
  induction l with
  | nil => simp [isort]
  | cons x xs ih => exact chain'_insertS htot x ih

theorem insertS_of_head {α : Type} {le : α → α → Bool} {x : α} {l : List α}
    (h : ∀ y ∈ l.head?, le x y = true) : insertS le x l = x :: l := by
  cases l with
  | nil => rfl
  | cons y ys =>
    unfold insertS
    rw [if_pos (h y rfl)]

theorem isort_of_chain' {α : Type} {le : α → α → Bool} {l : List α}
    (h : List.Chain' (fun a b => le a b = true) l) : isort le l = l := by
  induction l with
  | nil => rfl
  | cons x xs ih =>
    rw [List.chain'_cons'] at h
    rw [isort, ih h.2, insertS_of_head h.1]

theorem chain'_imp_pairwise {α : Type} (R : α → α → Prop)
    (tr : ∀ a b c, R a b → R b c → R a c) {l : List α}
    (h : List.Chain' R l) : List.Pairwise R l := by
  induction l with
  | nil => exact List.Pairwise.nil
  | cons x xs ih =>
    rw [List.chain'_cons'] at h
    have hp := ih h.2
    refine List.pairwise_cons.mpr ⟨?_, hp⟩
    intro y hy
    cases xs with
    | nil => simp at hy
    | cons z zs =>
      have hxz : R x z := h.1 z rfl
      rcases List.mem_cons.mp hy with rfl | hy'
      · exact hxz
      · have : ∀ w ∈ zs, R z w := by
          intro w hw
          exact List.rel_of_pairwise_cons hp (by simp [hw])
        exact tr x z y hxz (this y hy')

theorem input_cmp_cmpOK : CmpOK Input.cmp :=
  cmp3_cmpOK.comap (fun i : Input => i.m_Commitment)

theorem output_cmp_cmpOK : CmpOK Output.cmp :=
  (cmp3_cmpOK.comap (fun v : Output => v.m_Commitment)).ccatC
    ((cmp3_cmpOK.comap (fun v : Output => b2n v.m_Coinbase)).ccatC
      ((cmp3_cmpOK.comap (fun v : Output => b2n v.m_RecoveryOnly)).ccatC
        ((cmp3_cmpOK.comap (fun v : Output => v.m_Incubation)).ccatC
          ((cmp3_cmpOK.comap (fun v : Output => v.m_AssetID)).ccatC
            ((cmp3_cmpOK.opt.comap (fun v : Output => v.m_pConfidential)).ccatC
              (cmp3_cmpOK.opt.comap (fun v : Output => v.m_pPublic)))))))

/-- `Output::cmp` puts the commitment first: order implies commitment
order. -/
theorem Output.cmp_nonpos_commitment {v w : Output} (h : Output.cmp v w ≤ 0) :
    v.m_Commitment ≤ w.m_Commitment := by
  unfold Output.cmp at h
  rw [← cmp3_nonpos_iff]
  unfold ccat at h
  split at h
  · rename_i hz
    omega
  · exact h

theorem TxKernel.sizeOf_pos (a : TxKernel) : 1 ≤ sizeOf a := by
  cases a
  simp
  omega

/-- `RelativeLock.cmp` is a well-behaved comparison. -/
theorem relativeLock_cmp_cmpOK : CmpOK RelativeLock.cmp :=
  (cmp3_cmpOK.comap (fun a : RelativeLock => a.m_ID)).ccatC
    (cmp3_cmpOK.comap (fun a : RelativeLock => a.m_LockHeight))

theorem kcmp_flip_aux (r : Rules) :
    ∀ N : Nat,
      (∀ a b : TxKernel, sizeOf a + sizeOf b ≤ N →
        TxKernel.cmpSubtype r b a = -(TxKernel.cmpSubtype r a b) ∧
        TxKernel.cmp r b a = -(TxKernel.cmp r a b)) ∧
      (∀ xs ys : List TxKernel, sizeOf xs + sizeOf ys ≤ N →
        TxKernel.cmpList r ys xs = -(TxKernel.cmpList r xs ys)) := by
  intro N
  induction N with
  | zero =>
    constructor
    · intro a b hs
      exfalso
      have := TxKernel.sizeOf_pos a
      omega
    · intro xs ys hs
      exfalso
      cases xs <;> simp at hs
  | succ N ih =>
    constructor
    · intro a b hs
      have hsub : TxKernel.cmpSubtype r b a = -(TxKernel.cmpSubtype r a b) := by
        cases a with
        | mk i1 f1 mn1 mx1 ce1 v1 n1 =>
          cases b with
          | mk i2 f2 mn2 mx2 ce2 v2 n2 =>
            have hn : sizeOf n1 + sizeOf n2 ≤ N := by
              simp at hs
              omega
            cases v1 <;> cases v2 <;>
              simp only [TxKernel.cmpSubtype, neg_zero] <;> try rfl
            exact ccat_flip (cmp3_flip _ _)
              (ccat_flip (cmp3_flip _ _)
                (ccat_flip (cmp3_flip _ _)
                  (ccat_flip (cmp3_flip _ _)
                    (ccat_flip (cmp3_flip _ _)
                      (ccat_flip (ih.2 n1 n2 hn)
                        (ccat_flip
                          ((CmpOK.opt (cmp3_cmpOK.comap HashLock.m_Value)).flip _ _)
                          ((CmpOK.opt relativeLock_cmp_cmpOK).flip _ _)))))))
      refine ⟨hsub, ?_⟩
      rw [TxKernel.cmp.eq_def, TxKernel.cmp.eq_def]
      by_cases h2a : r.pForks2.m_Height ≤ a.m_HeightMin <;>
        by_cases h2b : r.pForks2.m_Height ≤ b.m_HeightMin <;>
          simp [h2a, h2b]
      · exact ccat_flip (cmp3_flip _ _) (ccat_flip (cmp3_flip _ _) hsub)
      · exact ccat_flip (cmp3_flip _ _) hsub
    · intro xs ys hs
      cases xs with
      | nil =>
        cases ys with
        | nil => simp [TxKernel.cmpList]
        | cons y ys1 => simp [TxKernel.cmpList]
      | cons x xs1 =>
        cases ys with
        | nil => simp [TxKernel.cmpList]
        | cons y ys1 =>
          have hxy : sizeOf x + sizeOf y ≤ N := by
            simp at hs
            omega
          have hls : sizeOf xs1 + sizeOf ys1 ≤ N := by
            simp at hs
            omega
          rw [TxKernel.cmpList.eq_def, TxKernel.cmpList.eq_def]
          simp only
          exact ccat_flip ((ih.1 x y hxy).2) (ih.2 xs1 ys1 hls)

theorem TxKernel.cmp_flip (r : Rules) (a b : TxKernel) :
    TxKernel.cmp r b a = -(TxKernel.cmp r a b) :=
  ((kcmp_flip_aux r (sizeOf a + sizeOf b)).1 a b le_rfl).2

theorem sweepInp_nil (i : Input) : sweepInp i [] = ([], [], false) := rfl

theorem sweepInp_cons (i : Input) (o : Output) (os : List Output) :
    sweepInp i (o :: os) =
      if TxBase.CmpInOut i o < 0 then ([], o :: os, false)
      else if TxBase.CmpInOut i o = 0 then ([], os, true)
      else (o :: (sweepInp i os).1, (sweepInp i os).2.1, (sweepInp i os).2.2) := rfl

theorem sweepAll_nil (os : List Output) : sweepAll [] os = ([], os, 0) := rfl

theorem sweepAll_cons (i : Input) (is : List Input) (os : List Output) :
    sweepAll (i :: is) os =
      if (sweepInp i os).2.2 then
        ((sweepAll is (sweepInp i os).2.1).1,
         (sweepInp i os).1 ++ (sweepAll is (sweepInp i os).2.1).2.1,
         (sweepAll is (sweepInp i os).2.1).2.2 + 1)
      else
        (i :: (sweepAll is (sweepInp i os).2.1).1,
         (sweepInp i os).1 ++ (sweepAll is (sweepInp i os).2.1).2.1,
         (sweepAll is (sweepInp i os).2.1).2.2) := rfl

theorem sweepInp_matched (i : Input) (os : List Output)
    (h : (sweepInp i os).2.2 = true) :
    ∃ o, o.m_Commitment = i.m_Commitment ∧
      os = (sweepInp i os).1 ++ o :: (sweepInp i os).2.1 := by
  induction os with
  | nil => rw [sweepInp_nil] at h; exact absurd h (by simp)
  | cons o os ih =>
    by_cases hlt : TxBase.CmpInOut i o < 0
    · rw [sweepInp_cons, if_pos hlt] at h
      exact absurd h (by simp)
    · by_cases heq : TxBase.CmpInOut i o = 0
      · refine ⟨o, ((cmp3_eq_zero_iff i.m_Commitment o.m_Commitment).mp heq).symm, ?_⟩
        rw [sweepInp_cons, if_neg hlt, if_pos heq]
        rfl
      · rw [sweepInp_cons, if_neg hlt, if_neg heq] at h ⊢
        obtain ⟨om, hom, hd⟩ := ih h
        refine ⟨om, hom, ?_⟩
        simp only [List.cons_append]
        rw [← hd]

theorem sweepInp_unmatched (i : Input) (os : List Output)
    (h : (sweepInp i os).2.2 = false) :
    os = (sweepInp i os).1 ++ (sweepInp i os).2.1 := by
  induction os with
  | nil => rw [sweepInp_nil]; rfl
  | cons o os ih =>
    by_cases hlt : TxBase.CmpInOut i o < 0
    · rw [sweepInp_cons, if_pos hlt]
      rfl
    · by_cases heq : TxBase.CmpInOut i o = 0
      · rw [sweepInp_cons, if_neg hlt, if_pos heq] at h
        exact absurd h (by simp)
      · rw [sweepInp_cons, if_neg hlt, if_neg heq] at h ⊢
        simp only [List.cons_append]
        rw [← ih h]

theorem sweepInp_pre_lt (i : Input) (os : List Output) :
    ∀ o ∈ (sweepInp i os).1, o.m_Commitment < i.m_Commitment := by
  induction os with
  | nil => rw [sweepInp_nil]; simp
  | cons o os ih =>
    by_cases hlt : TxBase.CmpInOut i o < 0
    · rw [sweepInp_cons, if_pos hlt]; simp
    · by_cases heq : TxBase.CmpInOut i o = 0
      · rw [sweepInp_cons, if_neg hlt, if_pos heq]; simp
      · rw [sweepInp_cons, if_neg hlt, if_neg heq]
        intro o' ho'
        rcases List.mem_cons.mp ho' with rfl | ho'
        · have h1 : ¬ (i.m_Commitment < o'.m_Commitment) := fun hc =>
            hlt ((cmp3_lt_iff _ _).mpr hc)
          have h2 : ¬ (i.m_Commitment = o'.m_Commitment) := fun hc =>
            heq ((cmp3_eq_zero_iff _ _).mpr hc)
          omega
        · exact ih o' ho'

theorem sweepInp_rem_head (i : Input) (os : List Output)
    (h : (sweepInp i os).2.2 = false) :
    ∀ o ∈ (sweepInp i os).2.1.head?, i.m_Commitment < o.m_Commitment := by
  induction os with
  | nil => rw [sweepInp_nil]; simp
  | cons o os ih =>
    by_cases hlt : TxBase.CmpInOut i o < 0
    · rw [sweepInp_cons, if_pos hlt]
      intro o' ho'
      simp at ho'
      subst ho'
      exact (cmp3_lt_iff _ _).mp hlt
    · by_cases heq : TxBase.CmpInOut i o = 0
      · rw [sweepInp_cons, if_neg hlt, if_pos heq] at h
        exact absurd h (by simp)
      · rw [sweepInp_cons, if_neg hlt, if_neg heq] at h ⊢
        exact ih h

/-- When the sweep removed no match for input `i`, every remaining output
commitment lies strictly above `i`'s (given commitment-sorted outputs). -/
theorem sweepInp_rem_gt (i : Input) (os : List Output)
    (hpw : List.Pairwise (fun a b : Output => a.m_Commitment ≤ b.m_Commitment) os)
    (h : (sweepInp i os).2.2 = false) :
    ∀ o ∈ (sweepInp i os).2.1, i.m_Commitment < o.m_Commitment := by
  have hd := sweepInp_unmatched i os h
  have hrem : List.Pairwise (fun a b : Output => a.m_Commitment ≤ b.m_Commitment)
      (sweepInp i os).2.1 := by
    have hsub : List.Sublist (sweepInp i os).2.1
        ((sweepInp i os).1 ++ (sweepInp i os).2.1) :=
      List.sublist_append_right _ _
    rw [← hd] at hsub
    exact List.Pairwise.sublist hsub hpw
  intro o ho
  cases hrem0 : (sweepInp i os).2.1 with
  | nil => rw [hrem0] at ho; simp at ho
  | cons o0 rest =>
    have hhead : i.m_Commitment < o0.m_Commitment := by
      have hh := sweepInp_rem_head i os h
      rw [hrem0] at hh
      exact hh o0 rfl
    rw [hrem0] at ho hrem
    rcases List.mem_cons.mp ho with rfl | ho'
    · exact hhead
    · have := List.rel_of_pairwise_cons hrem ho'
      omega

theorem sweepAll_spec :
    ∀ (is : List Input) (os : List Output),
      List.Pairwise (fun a b : Input => a.m_Commitment ≤ b.m_Commitment) is →
      List.Pairwise (fun a b : Output => a.m_Commitment ≤ b.m_Commitment) os →
      List.Sublist (sweepAll is os).1 is ∧
      List.Sublist (sweepAll is os).2.1 os ∧
      is.length = (sweepAll is os).1.length + (sweepAll is os).2.2 ∧
      os.length = (sweepAll is os).2.1.length + (sweepAll is os).2.2 ∧
      (∀ i' ∈ (sweepAll is os).1, ∀ o' ∈ (sweepAll is os).2.1,
        i'.m_Commitment ≠ o'.m_Commitment) := by
  intro is
  induction is with
  | nil =>
    intro os _ _
    rw [sweepAll_nil]
    simp
  | cons i is ih =>
    intro os hpi hpo
    have hpi' := List.pairwise_cons.mp hpi
    cases hm : (sweepInp i os).2.2 with
    | true =>
      obtain ⟨om, homc, hd⟩ := sweepInp_matched i os hm
      have hremsub : List.Sublist (sweepInp i os).2.1 os := by
        have hsub : List.Sublist (sweepInp i os).2.1
            ((sweepInp i os).1 ++ om :: (sweepInp i os).2.1) :=
          ((List.sublist_cons_self om _).trans (List.sublist_append_right _ _))
        rw [← hd] at hsub
        exact hsub
      have hrem := List.Pairwise.sublist hremsub hpo
      obtain ⟨s1, s2, s3, s4, s5⟩ := ih (sweepInp i os).2.1 hpi'.2 hrem
      have hpre := sweepInp_pre_lt i os
      have hosl : os.length =
          (sweepInp i os).1.length + ((sweepInp i os).2.1.length + 1) := by
        conv_lhs => rw [hd]
        simp
      rw [sweepAll_cons, if_pos (by rw [hm])]
      refine ⟨?_, ?_, ?_, ?_, ?_⟩
      · exact s1.trans (List.sublist_cons_self i is)
      · have hsub2 : List.Sublist
            ((sweepInp i os).1 ++ (sweepAll is (sweepInp i os).2.1).2.1)
            ((sweepInp i os).1 ++ om :: (sweepInp i os).2.1) :=
          List.Sublist.append_left (s2.trans (List.sublist_cons_self om _)) _
        rw [← hd] at hsub2
        exact hsub2
      · simp only [List.length_cons]
        omega
      · simp only [List.length_append]
        omega
      · intro i' hi' o' ho'
        rcases List.mem_append.mp ho' with hoL | hoR
        · have h1 := hpre o' hoL
          have h2 : i.m_Commitment ≤ i'.m_Commitment :=
            List.rel_of_pairwise_cons hpi (s1.subset hi')
          omega
        · exact s5 i' hi' o' hoR
    | false =>
      have hd := sweepInp_unmatched i os hm
      have hremsub : List.Sublist (sweepInp i os).2.1 os := by
        have hsub : List.Sublist (sweepInp i os).2.1
            ((sweepInp i os).1 ++ (sweepInp i os).2.1) :=
          List.sublist_append_right _ _
        rw [← hd] at hsub
        exact hsub
      have hrem := List.Pairwise.sublist hremsub hpo
      obtain ⟨s1, s2, s3, s4, s5⟩ := ih (sweepInp i os).2.1 hpi'.2 hrem
      have hpre := sweepInp_pre_lt i os
      have hgt := sweepInp_rem_gt i os hpo hm
      have hosl : os.length =
          (sweepInp i os).1.length + (sweepInp i os).2.1.length := by
        conv_lhs => rw [hd]
        simp
      rw [sweepAll_cons, if_neg (by rw [hm]; simp)]
      refine ⟨?_, ?_, ?_, ?_, ?_⟩
      · exact s1.cons₂ i
      · have hsub2 : List.Sublist
            ((sweepInp i os).1 ++ (sweepAll is (sweepInp i os).2.1).2.1)
            ((sweepInp i os).1 ++ (sweepInp i os).2.1) :=
          List.Sublist.append_left s2 _
        rw [← hd] at hsub2
        exact hsub2
      · simp only [List.length_cons]
        omega
      · simp only [List.length_append]
        omega
      · intro i' hi' o' ho'
        rcases List.mem_cons.mp hi' with rfl | hi''
        · rcases List.mem_append.mp ho' with hoL | hoR
          · have := hpre o' hoL
            omega
          · have := hgt o' (s2.subset hoR)
            omega
        · rcases List.mem_append.mp ho' with hoL | hoR
          · have h1 := hpre o' hoL
            have h2 : i.m_Commitment ≤ i'.m_Commitment :=
              List.rel_of_pairwise_cons hpi (s1.subset hi'')
            omega
          · exact s5 i' hi'' o' hoR

/-- On commitment-disjoint vectors the sweep is the identity. -/
theorem sweepAll_of_disjoint :
    ∀ (is : List Input) (os : List Output),
      (∀ i ∈ is, ∀ o ∈ os, i.m_Commitment ≠ o.m_Commitment) →
      sweepAll is os = (is, os, 0) := by
  intro is
  induction is with
  | nil => intro os _; rw [sweepAll_nil]
  | cons i is ih =>
    intro os hdisj
    have hm : (sweepInp i os).2.2 = false := by
      cases hm : (sweepInp i os).2.2 with
      | false => rfl
      | true =>
        obtain ⟨om, homc, hd⟩ := sweepInp_matched i os hm
        have homem : om ∈ os := by
          rw [hd]
          simp
        exact absurd homc.symm (hdisj i (by simp) om homem)
    have hd := sweepInp_unmatched i os hm
    have hrec : sweepAll is (sweepInp i os).2.1 = (is, (sweepInp i os).2.1, 0) := by
      refine ih _ ?_
      intro i' hi' o ho
      refine hdisj i' (by simp [hi']) o ?_
      rw [hd]
      exact List.mem_append.mpr (Or.inr ho)
    rw [sweepAll_cons, if_neg (by rw [hm]; simp), hrec]
    refine Prod.ext ?_ (Prod.ext ?_ rfl)
    · rfl
    · show (sweepInp i os).1 ++ (sweepInp i os).2.1 = os
      exact hd.symm

theorem inpLeB_total (a b : Input) : inpLeB a b = true ∨ inpLeB b a = true := by
  rcases input_cmp_cmpOK.le_total a b with h | h
  · left; simp [inpLeB, h]
  · right; simp [inpLeB, h]

theorem outLeB_total (a b : Output) : outLeB a b = true ∨ outLeB b a = true := by
  rcases output_cmp_cmpOK.le_total a b with h | h
  · left; simp [outLeB, h]
  · right; simp [outLeB, h]

theorem kernLeB_total (r : Rules) (a b : TxKernel) :
    kernLeB r a b = true ∨ kernLeB r b a = true := by
  have hf := TxKernel.cmp_flip r a b
  by_cases h : TxKernel.cmp r a b ≤ 0
  · left; simp [kernLeB, h]
  · right
    simp only [kernLeB, decide_eq_true_eq]
    omega

theorem inpLeB_trans {a b c : Input} (h1 : inpLeB a b = true) (h2 : inpLeB b c = true) :
    inpLeB a c = true := by
  simp only [inpLeB, decide_eq_true_eq] at h1 h2 ⊢
  exact input_cmp_cmpOK.le_trans h1 h2

theorem outLeB_trans {a b c : Output} (h1 : outLeB a b = true) (h2 : outLeB b c = true) :
    outLeB a c = true := by
  simp only [outLeB, decide_eq_true_eq] at h1 h2 ⊢
  exact output_cmp_cmpOK.le_trans h1 h2

/-- A full-order-sorted input list is commitment-sorted. -/
theorem inp_pairwise_comm {l : List Input}
    (h : List.Chain' (fun a b => inpLeB a b = true) l) :
    List.Pairwise (fun a b : Input => a.m_Commitment ≤ b.m_Commitment) l := by
  have hp := chain'_imp_pairwise (fun a b => inpLeB a b = true) (fun a b c hx hy => inpLeB_trans hx hy) h
  refine hp.imp ?_
  intro a b hab
  simp only [inpLeB, decide_eq_true_eq] at hab
  exact (cmp3_nonpos_iff _ _).mp hab

/-- A full-order-sorted output list is commitment-sorted. -/
theorem out_pairwise_comm {l : List Output}
    (h : List.Chain' (fun a b => outLeB a b = true) l) :
    List.Pairwise (fun a b : Output => a.m_Commitment ≤ b.m_Commitment) l := by
  have hp := chain'_imp_pairwise (fun a b => outLeB a b = true) (fun a b c hx hy => outLeB_trans hx hy) h
  refine hp.imp ?_
  intro a b hab
  simp only [outLeB, decide_eq_true_eq] at hab
  exact Output.cmp_nonpos_commitment hab

/-- Everything `TxVectors::Full::Normalize` guarantees: the three vectors
are sorted, the kept inputs and outputs share no commitment, and the
returned cut-through count is the size reduction of both vectors. -/
theorem normalize_props (r : Rules) (t : TxVectorsFull) :
    List.Chain' (fun a b => inpLeB a b = true) (t.Normalize r).1.m_vInputs ∧
    List.Chain' (fun a b => outLeB a b = true) (t.Normalize r).1.m_vOutputs ∧
    List.Chain' (fun a b => kernLeB r a b = true) (t.Normalize r).1.m_vKernels ∧
    (∀ i ∈ (t.Normalize r).1.m_vInputs, ∀ o ∈ (t.Normalize r).1.m_vOutputs,
      i.m_Commitment ≠ o.m_Commitment) ∧
    t.m_vInputs.length = (t.Normalize r).1.m_vInputs.length + (t.Normalize r).2 ∧
    t.m_vOutputs.length = (t.Normalize r).1.m_vOutputs.length + (t.Normalize r).2 := by
  have hci : List.Chain' (fun a b => inpLeB a b = true) (isort inpLeB t.m_vInputs) :=
    isort_chain' inpLeB_total _
  have hco : List.Chain' (fun a b => outLeB a b = true) (isort outLeB t.m_vOutputs) :=
    isort_chain' outLeB_total _
  have hpi : List.Pairwise (fun a b : Input => inpLeB a b = true)
      (isort inpLeB t.m_vInputs) :=
    chain'_imp_pairwise (fun a b => inpLeB a b = true) (fun a b c hx hy => inpLeB_trans hx hy) hci
  have hpo : List.Pairwise (fun a b : Output => outLeB a b = true)
      (isort outLeB t.m_vOutputs) :=
    chain'_imp_pairwise (fun a b => outLeB a b = true) (fun a b c hx hy => outLeB_trans hx hy) hco
  obtain ⟨s1, s2, s3, s4, s5⟩ :=
    sweepAll_spec (isort inpLeB t.m_vInputs) (isort outLeB t.m_vOutputs)
      (inp_pairwise_comm hci) (out_pairwise_comm hco)
  have hki : (t.Normalize r).1.m_vInputs =
      (sweepAll (isort inpLeB t.m_vInputs) (isort outLeB t.m_vOutputs)).1 := rfl
  have hko : (t.Normalize r).1.m_vOutputs =
      (sweepAll (isort inpLeB t.m_vInputs) (isort outLeB t.m_vOutputs)).2.1 := rfl
  have hkk : (t.Normalize r).1.m_vKernels = isort (kernLeB r) t.m_vKernels := rfl
  have hkn : (t.Normalize r).2 =
      (sweepAll (isort inpLeB t.m_vInputs) (isort outLeB t.m_vOutputs)).2.2 := rfl
  refine ⟨?_, ?_, ?_, ?_, ?_, ?_⟩
  · rw [hki]
    exact (List.Pairwise.sublist s1 hpi).chain'
  · rw [hko]
    exact (List.Pairwise.sublist s2 hpo).chain'
  · rw [hkk]
    exact isort_chain' (kernLeB_total r) _
  · rw [hki, hko]
    exact s5
  · rw [hki, hkn]
    rw [← isort_length inpLeB t.m_vInputs]
    exact s3
  · rw [hko, hkn]
    rw [← isort_length outLeB t.m_vOutputs]
    exact s4

/-- On a canonical (sorted, cut-through-free) transaction `Normalize` is
the identity and reports zero pairs. -/
theorem normalize_canonical_id (r : Rules) (t : TxVectorsFull)
    (h1 : List.Chain' (fun a b => inpLeB a b = true) t.m_vInputs)
    (h2 : List.Chain' (fun a b => outLeB a b = true) t.m_vOutputs)
    (h3 : List.Chain' (fun a b => kernLeB r a b = true) t.m_vKernels)
    (h4 : ∀ i ∈ t.m_vInputs, ∀ o ∈ t.m_vOutputs, i.m_Commitment ≠ o.m_Commitment) :
    t.Normalize r = (t, 0) := by
  have e1 : isort inpLeB t.m_vInputs = t.m_vInputs := isort_of_chain' h1
  have e2 : isort outLeB t.m_vOutputs = t.m_vOutputs := isort_of_chain' h2
  have e3 : isort (kernLeB r) t.m_vKernels = t.m_vKernels := isort_of_chain' h3
  have e4 : sweepAll t.m_vInputs t.m_vOutputs = (t.m_vInputs, t.m_vOutputs, 0) :=
    sweepAll_of_disjoint t.m_vInputs t.m_vOutputs h4
  cases t with
  | mk ins outs kerns =>
    simp only [TxVectorsFull.Normalize, NormalizeP, NormalizeE] at *
    rw [e1, e2, e3, e4]

/-- C7 counterexample: on the empty range [5, 3] the claim demands
`IsInRange` be false everywhere (no `h` satisfies `5 ≤ h ≤ 3`), but the
wrapping 64-bit subtraction makes `IsInRange(3)` true. -/
theorem C7_counterexample :
    HeightRange.IsInRange ⟨5, 3⟩ 3 = true ∧ ¬ (5 ≤ 3 ∧ 3 ≤ 3) := by
  constructor
  · decide
  · decide

/-- C7 (amended): for heights below `2^64` and a NON-EMPTY range,
`IsInRange(h)` holds iff `min ≤ h ≤ max`; on empty ranges the wrapping
arithmetic does not implement that predicate. `IsEmpty` is exactly
`min > max` for every range. -/
theorem C7_amended (a b : HeightRange) (h : Nat)
    (hmin : a.m_Min < W64) (hmax : a.m_Max < W64) (hh : h < W64)
    (hne : a.m_Min ≤ a.m_Max) :
    (HeightRange.IsInRange a h = true ↔ a.m_Min ≤ h ∧ h ≤ a.m_Max) ∧
    (HeightRange.IsEmpty b = true ↔ b.m_Max < b.m_Min) := by
  constructor
  · simp only [HeightRange.IsInRange, HeightRange.IsInRangeRelative, sub64,
      decide_eq_true_eq]
    have hw : W64 = 18446744073709551616 := by norm_num [W64]
    rw [hw] at hmin hmax hh ⊢
    omega
  · simp [HeightRange.IsEmpty]

/-- C7 witness: the amended statement evaluated on the range [2, 7],
h = 5, and the empty range [5, 3]. -/
theorem C7_witness :
    (HeightRange.IsInRange ⟨2, 7⟩ 5 = true ↔ 2 ≤ 5 ∧ 5 ≤ 7) ∧
    (HeightRange.IsEmpty ⟨5, 3⟩ = true ↔ 3 < 5) :=
  C7_amended ⟨2, 7⟩ ⟨5, 3⟩ 5 (by norm_num [W64]) (by norm_num [W64])
    (by norm_num [W64]) (by norm_num)

/-- C5: `Rules::get_Emission(h)` computes exactly the claimed formula:
with `d = h - HeightGenesis` (wrapping), reward `Value0` while
`d < Drop0`, else with `n = 1 + (d - Drop0)/Drop1`, zero once `n ≥ 64`
(the bit width of `Amount`), else `(Value0 + (n ≥ 2 ? Value0/4 : 0)) >> n`
in unsigned 64-bit arithmetic. -/
theorem C5_emission (r : Rules) (h : Nat) (hh : h < W64)
    (hv : r.EmissionValue0 < W64) (hd : 0 < r.EmissionDrop1) :
    Rules.get_Emission r h = emissionClaim r h := by
  unfold Rules.get_Emission Rules.get_EmissionEx emissionClaim
  by_cases h0 : sub64 h Rules.HeightGenesis < r.EmissionDrop0
  · simp [h0]
  · simp only [h0, ite_false]
    by_cases h1 : 64 ≤ 1 + (sub64 h Rules.HeightGenesis - r.EmissionDrop0) / r.EmissionDrop1
    · simp [h1]
    · simp only [h1, ite_false]
      by_cases h2 : 2 ≤ 1 + (sub64 h Rules.HeightGenesis - r.EmissionDrop0) / r.EmissionDrop1
      · simp [h2]
      · simp only [h2, ite_false]
        rw [Nat.add_zero, Nat.mod_eq_of_lt hv]

/-- C5 witness: the emission at height 3 of the fixture rules. -/
theorem C5_witness : Rules.get_Emission rFix 3 = emissionClaim rFix 3 :=
  C5_emission rFix 3 (by norm_num [W64]) (by norm_num [rFix, W64])
    (by norm_num [rFix])

/-- C9: `MasterKey::get_Child(pKdf, kidv)` returns the parent KDF itself
when the subkey is 0 or the scheme is BB21, and the freshly derived child
for the subkey index otherwise. -/
theorem C9_getChild {Kdf : Type} (createChild : Kdf → Nat → Kdf) (p : Kdf)
    (k1 k2 k3 : KeyIDV) (h1 : k1.subkey = 0) (h2 : k2.scheme = KidvScheme.BB21)
    (h3 : ¬ k3.subkey = 0) (h4 : ¬ k3.scheme = KidvScheme.BB21) :
    MasterKey.get_Child createChild p k1 = p ∧
    MasterKey.get_Child createChild p k2 = p ∧
    MasterKey.get_Child createChild p k3 = createChild p k3.subkey := by
  unfold MasterKey.get_Child
  refine ⟨?_, ?_, ?_⟩
  · rw [if_pos h1]
  · by_cases h0 : k2.subkey = 0
    · rw [if_pos h0]
    · rw [if_neg h0, if_pos h2]
  · rw [if_neg h3, if_neg h4]

/-- C9 witness: subkey 0, BB21 and a plain subkey-5 identifier over a
`Nat` KDF model. -/
theorem C9_witness :
    MasterKey.get_Child cc0 7 ⟨0, KidvScheme.V1⟩ = 7 ∧
    MasterKey.get_Child cc0 7 ⟨5, KidvScheme.BB21⟩ = 7 ∧
    MasterKey.get_Child cc0 7 ⟨5, KidvScheme.V1⟩ =
      cc0 7 (KeyIDV.mk 5 KidvScheme.V1).subkey :=
  C9_getChild cc0 7 ⟨0, KidvScheme.V1⟩ ⟨5, KidvScheme.BB21⟩ ⟨5, KidvScheme.V1⟩
    (by decide) (by decide) (by decide) (by decide)

/-- C10: a shielded-output kernel (no nested kernels) bumps the kernel,
output and shielded-output counters, a shielded-input kernel the kernel,
input and shielded-input counters; so with the default fee settings the
former is charged `m_Kernel + m_Output + m_ShieldedOutput = 1020` and the
latter `m_Kernel + m_ShieldedInput = 1010`. -/
theorem C10_shieldedStats (s : TxStats) (i f mn mx : Nat) (ce : Bool)
    (m1 tc ser rp m2 we spc sp : Nat) :
    TxKernel.AddStats (.mk i f mn mx ce (.ShieldedOutput m1 tc ser rp) []) s =
      { s with m_Fee := s.m_Fee + f, m_Kernels := s.m_Kernels + 1,
               m_Outputs := s.m_Outputs + 1,
               m_OutputsShielded := s.m_OutputsShielded + 1 } ∧
    TxKernel.AddStats (.mk i f mn mx ce (.ShieldedInput m2 we spc sp) []) s =
      { s with m_Fee := s.m_Fee + f, m_Kernels := s.m_Kernels + 1,
               m_Inputs := s.m_Inputs + 1,
               m_InputsShielded := s.m_InputsShielded + 1 } ∧
    FeeSettings.Calculate FeeSettings.default
        (TxKernel.AddStats (.mk i f mn mx ce (.ShieldedOutput m1 tc ser rp) []) s) =
      (FeeSettings.Calculate FeeSettings.default s + 1020) % W64 ∧
    FeeSettings.Calculate FeeSettings.default
        (TxKernel.AddStats (.mk i f mn mx ce (.ShieldedInput m2 we spc sp) []) s) =
      (FeeSettings.Calculate FeeSettings.default s + 1010) % W64 := by
  have e1 : TxKernel.AddStats (.mk i f mn mx ce (.ShieldedOutput m1 tc ser rp) []) s =
      { s with m_Fee := s.m_Fee + f, m_Kernels := s.m_Kernels + 1,
               m_Outputs := s.m_Outputs + 1,
               m_OutputsShielded := s.m_OutputsShielded + 1 } := by
    simp [TxKernel.AddStats, TxKernel.AddStatsList]
  have e2 : TxKernel.AddStats (.mk i f mn mx ce (.ShieldedInput m2 we spc sp) []) s =
      { s with m_Fee := s.m_Fee + f, m_Kernels := s.m_Kernels + 1,
               m_Inputs := s.m_Inputs + 1,
               m_InputsShielded := s.m_InputsShielded + 1 } := by
    simp [TxKernel.AddStats, TxKernel.AddStatsList]
  have hw : W64 = 18446744073709551616 := by norm_num [W64]
  refine ⟨e1, e2, ?_, ?_⟩
  · rw [e1]
    simp only [FeeSettings.Calculate, FeeSettings.default, hw]
    omega
  · rw [e2]
    simp only [FeeSettings.Calculate, FeeSettings.default, hw]
    omega

/-- C8: `Output::IsValid` rejects every shape violation — a coinbase
output with a Confidential proof, both proofs at once, no proof at all, or
a Public proof without `AllowPublicUtxos` on a non-coinbase output — and
such an output never reaches a range-proof verifier. -/
theorem C8_outputShape (env : OutputEnv) (r : Rules) (hScheme : Nat) (o : Output)
    (h : (o.m_Coinbase = true ∧ o.m_pConfidential.isSome = true) ∨
         (o.m_pConfidential.isSome = true ∧ o.m_pPublic.isSome = true) ∨
         (o.m_pConfidential = none ∧ o.m_pPublic = none) ∨
         (o.m_pPublic.isSome = true ∧ r.AllowPublicUtxos = false ∧
           o.m_Coinbase = false)) :
    Output.IsValid env r hScheme o = false ∧
    Output.reachesVerifier env r o = false := by
  unfold Output.IsValid Output.reachesVerifier
  by_cases hi : env.importOk o.m_Commitment
  · rcases h with ⟨hcb, hconf⟩ | ⟨hconf, hpub⟩ | ⟨hconf, hpub⟩ | ⟨hpub, hallow, hcb⟩ <;>
      cases hoc : o.m_pConfidential <;> cases hop : o.m_pPublic <;>
        simp_all
  · simp [hi]

/-- C8 witness: an output carrying neither proof is rejected. -/
theorem C8_witness :
    Output.IsValid envO rFix 0 oBad = false ∧
    Output.reachesVerifier envO rFix oBad = false :=
  C8_outputShape envO rFix 0 oBad (Or.inr (Or.inr (Or.inl (by decide))))

/-- C1 counterexample: a nested child with range [0, 100] under a parent
with range [5, 8] passes `IsValidBase` (at hScheme 6, Fork1+), although
the child's range is NOT contained in the parent's — the code checks the
opposite containment (its own comment: "parent Height range must be
contained in ours"). -/
theorem C1_counterexample :
    TxKernel.IsValidBase envK rFix 6 0 (some kPar) none kChild = some (0, none) ∧
    ¬ (kPar.m_HeightMin ≤ kChild.m_HeightMin ∧
       kChild.m_HeightMax ≤ kPar.m_HeightMax) := by
  constructor
  · simp [TxKernel.IsValidBase, TxKernel.IsValidBaseNested, kPar, kChild, rFix,
      TxKernel.m_CanEmbed, TxKernel.m_HeightMin, TxKernel.m_HeightMax,
      TxKernel.m_vNested]
  · decide

/-- C1 (amended): for a kernel validated as a nested child,
`TxKernel::IsValidBase` succeeds only if the PARENT's height range is
contained in the CHILD's: `child.min ≤ parent.min` and
`parent.max ≤ child.max`. -/
theorem C1_amended (env : KernelEnv) (r : Rules) (hScheme : Nat) (exc : Int)
    (pComm : Option Int) (par k : TxKernel)
    (h : TxKernel.IsValidBase env r hScheme exc (some par) pComm k ≠ none) :
    k.m_HeightMin ≤ par.m_HeightMin ∧ par.m_HeightMax ≤ k.m_HeightMax := by
  rw [TxKernel.IsValidBase.eq_def] at h
  by_cases h1 : hScheme < r.pForks1.m_Height ∧ k.m_CanEmbed = true
  · rw [if_pos h1] at h
    exact absurd rfl h
  · rw [if_neg h1] at h
    simp only at h
    by_cases h2 : ¬ (k.m_CanEmbed = true)
    · rw [if_pos h2] at h
      exact absurd rfl h
    · rw [if_neg h2] at h
      by_cases h3 : par.m_HeightMin < k.m_HeightMin ∨ k.m_HeightMax < par.m_HeightMax
      · rw [if_pos h3] at h
        exact absurd rfl h
      · omega

/-- C1 witness: the amended containment read off the concrete child/parent
pair that `IsValidBase` accepts. -/
theorem C1_witness :
    kChild.m_HeightMin ≤ kPar.m_HeightMin ∧
    kPar.m_HeightMax ≤ kChild.m_HeightMax :=
  C1_amended envK rFix 6 0 none kPar kChild (by
    simp [TxKernel.IsValidBase, TxKernel.IsValidBaseNested, kPar, kChild, rFix,
      TxKernel.m_CanEmbed, TxKernel.m_HeightMin, TxKernel.m_HeightMax,
      TxKernel.m_vNested])

/-- C2 counterexample: two Fork2+ kernels with EQUAL internal IDs but
different commitments compare nonzero — `cmp` is not determined by the
internal ID alone and does not return 0 on equal IDs; it falls through to
the subtype comparison. -/
theorem C2_counterexample :
    rFix.pForks2.m_Height ≤ kA2.m_HeightMin ∧
    rFix.pForks2.m_Height ≤ kB2.m_HeightMin ∧
    kA2.m_InternalID = kB2.m_InternalID ∧
    TxKernel.cmp rFix kA2 kB2 = -1 := by
  refine ⟨by decide, by decide, by decide, ?_⟩
  simp [TxKernel.cmp, TxKernel.cmpSubtype, TxKernel.cmpList, kA2, kB2, rFix,
    cmp3, ccat, cmpOpt, TxKernel.m_HeightMin, TxKernel.m_InternalID,
    TxKernel.subtypeCode, TxKernel.variant, KernelVariant.code]

/-- C2 (amended): for two Fork2+ kernels `cmp` compares the internal IDs
FIRST: whenever they differ the result is the ID comparison, and on equal
IDs it falls through to (subtype, subtype fields); a pre-Fork2 kernel
compares strictly below a Fork2+ kernel. -/
theorem C2_amended (r : Rules) (a b c : TxKernel)
    (h1 : r.pForks2.m_Height ≤ a.m_HeightMin)
    (h2 : r.pForks2.m_Height ≤ b.m_HeightMin)
    (h3 : c.m_HeightMin < r.pForks2.m_Height) :
    TxKernel.cmp r a b =
      ccat (cmp3 a.m_InternalID b.m_InternalID)
        (ccat (cmp3 a.subtypeCode b.subtypeCode) (TxKernel.cmpSubtype r a b)) ∧
    (a.m_InternalID ≠ b.m_InternalID →
      TxKernel.cmp r a b = cmp3 a.m_InternalID b.m_InternalID) ∧
    TxKernel.cmp r c a = -1 ∧
    TxKernel.cmp r a c = 1 := by
  have e1 : TxKernel.cmp r a b =
      ccat (cmp3 a.m_InternalID b.m_InternalID)
        (ccat (cmp3 a.subtypeCode b.subtypeCode) (TxKernel.cmpSubtype r a b)) := by
    rw [TxKernel.cmp.eq_def, if_pos h1, if_neg (not_not_intro h2)]
  refine ⟨e1, ?_, ?_, ?_⟩
  · intro hne
    rw [e1]
    unfold ccat
    rw [if_neg (fun hz => hne ((cmp3_eq_zero_iff _ _).mp hz))]
  · rw [TxKernel.cmp.eq_def, if_neg (by omega), if_pos h1]
  · rw [TxKernel.cmp.eq_def, if_pos h1, if_pos (by omega)]

/-- C2 witness: the Fork2 ordering rules evaluated on the concrete
kernels: a pre-Fork2 kernel below a Fork2+ one, in both orders. -/
theorem C2_witness :
    TxKernel.cmp rFix kPre kA2 = -1 ∧ TxKernel.cmp rFix kA2 kPre = 1 :=
  ⟨(C2_amended rFix kA2 kB2 kPre (by decide) (by decide) (by decide)).2.2.1,
   (C2_amended rFix kA2 kB2 kPre (by decide) (by decide) (by decide)).2.2.2⟩

/-- C3: after `TxVectors::Full::Normalize` the inputs, outputs and kernels
are each sorted (in their respective `cmp` orders), no remaining input
shares a commitment with a remaining output, and the returned count is both
the input-vector and the output-vector size reduction. -/
theorem C3_normalize (r : Rules) (t : TxVectorsFull) :
    List.Chain' (fun a b => inpLeB a b = true) (t.Normalize r).1.m_vInputs ∧
    List.Chain' (fun a b => outLeB a b = true) (t.Normalize r).1.m_vOutputs ∧
    List.Chain' (fun a b => kernLeB r a b = true) (t.Normalize r).1.m_vKernels ∧
    (∀ i ∈ (t.Normalize r).1.m_vInputs, ∀ o ∈ (t.Normalize r).1.m_vOutputs,
      i.m_Commitment ≠ o.m_Commitment) ∧
    t.m_vInputs.length = (t.Normalize r).1.m_vInputs.length + (t.Normalize r).2 ∧
    t.m_vOutputs.length = (t.Normalize r).1.m_vOutputs.length + (t.Normalize r).2 :=
  normalize_props r t

/-- C4: `Normalize` is idempotent: it leaves a canonical transaction
(sorted vectors, no input/output commitment pair) unchanged returning 0,
and running it twice leaves the first run's result unchanged with the
second run returning 0. -/
theorem C4_idempotent (r : Rules) (t u : TxVectorsFull)
    (h1 : List.Chain' (fun a b => inpLeB a b = true) t.m_vInputs)
    (h2 : List.Chain' (fun a b => outLeB a b = true) t.m_vOutputs)
    (h3 : List.Chain' (fun a b => kernLeB r a b = true) t.m_vKernels)
    (h4 : ∀ i ∈ t.m_vInputs, ∀ o ∈ t.m_vOutputs, i.m_Commitment ≠ o.m_Commitment) :
    t.Normalize r = (t, 0) ∧
    (u.Normalize r).1.Normalize r = ((u.Normalize r).1, 0) := by
  refine ⟨normalize_canonical_id r t h1 h2 h3 h4, ?_⟩
  obtain ⟨g1, g2, g3, g4, _, _⟩ := normalize_props r u
  exact normalize_canonical_id r _ g1 g2 g3 g4

/-- C4 witness: the empty transaction is a fixed point, and normalizing
the cut-through fixture twice changes nothing the second time. -/
theorem C4_witness :
    TxVectorsFull.Normalize rFix ⟨[], [], []⟩ = (⟨[], [], []⟩, 0) ∧
    (TxVectorsFull.Normalize rFix tCut).1.Normalize rFix =
      ((TxVectorsFull.Normalize rFix tCut).1, 0) :=
  C4_idempotent rFix ⟨[], [], []⟩ tCut (by simp) (by simp) (by simp) (by simp)

/-- C6: `Rules::UpdateChecksum` throws exactly on non-monotonic fork
heights (`pForks[0].m_Height ≠ HeightGenesis - 1` or a later fork below an
earlier one); otherwise it completes, writing `pForks[0..2].m_Hash`
deterministically from the absorbed parameter transcripts. -/
theorem C6_updateChecksum (e : ChecksumExternals) (r rq : Rules)
    (hcon : r.IsForkHeightsConsistent = true)
    (hbad : rq.IsForkHeightsConsistent = false) :
    Rules.UpdateChecksum e rq = Except.error "Inconsistent Forks" ∧
    Rules.UpdateChecksum e r = Except.ok { r with
      pForks0 := { r.pForks0 with m_Hash := e.oracleH (Rules.checksumBase e r) },
      pForks1 := { r.pForks1 with m_Hash := e.oracleH (Rules.checksumT1 e r) },
      pForks2 := { r.pForks2 with m_Hash := e.oracleH (Rules.checksumT2 e r) } } := by
  constructor
  · unfold Rules.UpdateChecksum
    simp [hbad]
  · unfold Rules.UpdateChecksum
    simp [hcon]

/-- C6 witness: the fixture rules pass the checksum, the non-monotonic
variant aborts. -/
theorem C6_witness :
    Rules.UpdateChecksum eFix rBad = Except.error "Inconsistent Forks" ∧
    Rules.UpdateChecksum eFix rFix = Except.ok { rFix with
      pForks0 := { rFix.pForks0 with
        m_Hash := eFix.oracleH (Rules.checksumBase eFix rFix) },
      pForks1 := { rFix.pForks1 with
        m_Hash := eFix.oracleH (Rules.checksumT1 eFix rFix) },
      pForks2 := { rFix.pForks2 with
        m_Hash := eFix.oracleH (Rules.checksumT2 eFix rFix) } } :=
  C6_updateChecksum eFix rFix rBad (by decide) (by decide)

end Beam
